/-
Verification of the scheduled-transmission daemon (transmitter.py).

This file shallowly embeds the parts of the program that the checked
properties speak about: the schedule CSV parser (`parse_schedule`), the
overlap check (`check_overlaps`), schedule loading
(`load_and_check_schedules`) and the supervisor's reload/dispatch steps,
the mode table (`parse_mode`), the admission check (`check_signal_power`),
the fire-time audio file enumeration, and the PTT command trace of
`transmit`.  Wall-clock datetimes are modelled as minutes since the civil
epoch (an `Int`), calendar dates as day numbers obtained from the standard
days-from-civil computation, and strings as their character lists.
-/
import Mathlib

namespace RigRemote

/-! ## String and number parsing primitives

`transmitter.py` parses CSV fields with `datetime.strptime`, `int` and
`float`.  These are modelled executably over `List Char`. -/

/-- Split a character list on a separator character (like `str.split`). -/
def splitOnChar (c : Char) : List Char → List (List Char)
  | [] => [[]]
  | x :: xs =>
    let r := splitOnChar c xs
    if x = c then [] :: r
    else
      match r with
      | [] => [[x]]
      | h :: t => (x :: h) :: t

/-- Decimal digits to a natural number; `none` when empty or non-digit. -/
def digitsToNat? (l : List Char) : Option Nat :=
  if l ≠ [] ∧ l.all (·.isDigit) then
    some (l.foldl (fun n c => n * 10 + (c.toNat - 48)) 0)
  else none

/-- Drop leading whitespace. -/
def dropWS (l : List Char) : List Char := l.dropWhile (·.isWhitespace)

/-- Strip whitespace from both ends (like `str.strip`). -/
def trimWS (l : List Char) : List Char :=
  dropWS ((dropWS l.reverse).reverse)

/-- True when the string is empty or whitespace only, i.e. Python's
`not s.strip()`. -/
def isBlankStr (s : String) : Bool := s.data.all (·.isWhitespace)

/-- Python `int(s)`: optional surrounding whitespace, optional sign,
decimal digits; raises (here: `none`) otherwise. -/
def pyInt? (s : String) : Option Int :=
  match trimWS s.data with
  | '-' :: rest => (digitsToNat? rest).map (fun n => -(n : Int))
  | '+' :: rest => (digitsToNat? rest).map (fun n => (n : Int))
  | l => (digitsToNat? l).map (fun n => (n : Int))

/-- The exact value of a parsed decimal literal, kept unreduced as
`num / 10 ^ exp` (a shallow stand-in for the parsed float; no claim
compares frequencies, so the representation is never normalised). -/
structure DecFloat where
  num : Int
  exp : Nat
deriving DecidableEq

/-- Python `float(s)` restricted to plain decimal notation
(`digits`, `digits.digits`, `.digits`, `digits.`), with optional sign and
surrounding whitespace.  The value is kept exactly. -/
def pyFloat? (s : String) : Option DecFloat :=
  let l := trimWS s.data
  let signed : Int × List Char :=
    match l with
    | '-' :: r => (-1, r)
    | '+' :: r => (1, r)
    | _ => (1, l)
  match splitOnChar '.' signed.2 with
  | [a] => (digitsToNat? a).map (fun n => ⟨signed.1 * n, 0⟩)
  | [a, b] =>
    if a = [] ∧ b = [] then none
    else
      let ipart := if a = [] then some 0 else digitsToNat? a
      let fpart := if b = [] then some 0 else digitsToNat? b
      match ipart, fpart with
      | some i, some f =>
        some ⟨signed.1 * ((i : Int) * (10 : Int) ^ b.length + (f : Int)),
          b.length⟩
      | _, _ => none
  | _ => none

/-- `str.replace(a, b)` for single characters. -/
def replaceChar (a b : Char) (l : List Char) : List Char :=
  l.map (fun c => if c = a then b else c)

/-! ## Calendar

Dates are mapped to day numbers with the standard civil-calendar
computation so that `datetime` comparison and `timedelta(days=1)` steps
are exact. -/

/-- Gregorian leap year. -/
def isLeap (y : Nat) : Bool := y % 4 = 0 && (y % 100 ≠ 0 || y % 400 = 0)

/-- Days in a month of a given year. -/
def daysInMonth (y m : Nat) : Nat :=
  if m = 2 then (if isLeap y then 29 else 28)
  else if m = 4 ∨ m = 6 ∨ m = 9 ∨ m = 11 then 30
  else 31

/-- Day number of a civil date (days-from-civil; day 0 = 1970-01-01). -/
def daysFromCivil (y m d : Nat) : Int :=
  let yi : Int := if m ≤ 2 then (y : Int) - 1 else (y : Int)
  let era : Int := (if 0 ≤ yi then yi else yi - 399) / 400
  let yoe : Int := yi - era * 400
  let mp : Int := ((m : Int) + 9) % 12
  let doy : Int := (153 * mp + 2) / 5 + (d : Int) - 1
  let doe : Int := yoe * 365 + yoe / 4 - yoe / 100 + doy
  era * 146097 + doe - 719468

/-- `datetime.strptime(s, "%d.%m.%Y")`, returned as a day number. -/
def parseDate? (s : String) : Option Int :=
  match splitOnChar '.' s.data with
  | [ds, ms, ys] =>
    match digitsToNat? ds, digitsToNat? ms, digitsToNat? ys with
    | some d, some m, some y =>
      if 1 ≤ m ∧ m ≤ 12 ∧ 1 ≤ d ∧ d ≤ daysInMonth y m ∧ 1 ≤ y ∧ y ≤ 9999 then
        some (daysFromCivil y m d)
      else none
    | _, _, _ => none
  | _ => none

/-- `datetime.strptime(s, "%H:%M").time()`, as minutes after midnight. -/
def parseTimeHM? (s : String) : Option Nat :=
  match splitOnChar ':' s.data with
  | [hs, ms] =>
    match digitsToNat? hs, digitsToNat? ms with
    | some h, some m => if h ≤ 23 ∧ m ≤ 59 then some (h * 60 + m) else none
    | _, _ => none
  | _ => none

/-! ## Data model -/

/-- One CSV row as handed out by `csv.DictReader`: each cell is `some`
string when the column is present in the header, `none` when absent
(accessing an absent key raises `KeyError`). -/
structure Row where
  startDate : Option String
  endDate : Option String
  startTime : Option String
  duration : Option String
  frequency : Option String
  mode : Option String
  power : Option String
  pause : Option String
deriving DecidableEq

/-- One occurrence produced by `parse_schedule` (the dict appended at
transmitter.py:343-352).  Datetimes are minutes since the epoch. -/
structure Sched where
  set_folder : String
  start_datetime : Int
  end_datetime : Int
  duration : Int
  frequency : DecFloat
  mode : String
  power : Int
  pause : Int
deriving DecidableEq

/-- `Option` to `Except`: a `none` models a raised exception
(`ValueError` from `strptime`/`int`/`float`, or a `KeyError`). -/
def req : Option α → Except Unit α
  | none => .error ()
  | some a => .ok a

/-- The per-row day expansion loop (transmitter.py:334-354): one
occurrence per day from the current day to `endDay`, discarding
occurrences whose end lies in the past.  `fuel` bounds the iteration and
is always called with at least `endDay - cur + 1`. -/
def expandDays (now : Int) (set_folder : String) (endDay : Int)
    (timeMin : Nat) (dur : Int) (freq : DecFloat) (mode : String)
    (power pause : Int) : Nat → Int → List Sched
  | 0, _ => []
  | fuel + 1, cur =>
    if cur ≤ endDay then
      let sdt : Int := cur * 1440 + (timeMin : Int)
      let edt : Int := sdt + dur
      let rest := expandDays now set_folder endDay timeMin dur freq mode
        power pause fuel (cur + 1)
      if edt < now then rest
      else
        { set_folder := set_folder, start_datetime := sdt,
          end_datetime := edt, duration := dur, frequency := freq,
          mode := mode, power := power, pause := pause } :: rest
    else []

/-- The body of the row loop of `parse_schedule`
(transmitter.py:310-354).  A `.ok []` is a skipped row (missing or blank
Start Date, non-positive duration, start date after end date, or all days
in the past); a `.error ()` is an exception escaping the row body (failed
`strptime`/`int`/`float`, or a missing column). -/
def parseRow (now : Int) (set_folder : String) (r : Row) :
    Except Unit (List Sched) :=
  match r.startDate with
  | none => .ok []
  | some sdStr =>
    if isBlankStr sdStr then .ok []
    else do
      let startDay ← req (parseDate? sdStr)
      let edStr ← req r.endDate
      let endDay ← req (parseDate? edStr)
      let stStr ← req r.startTime
      let timeMin ← req (parseTimeHM? stStr)
      let durStr ← req r.duration
      let dur ← req (pyInt? durStr)
      let fqStr ← req r.frequency
      let freq ← req (pyFloat? (String.mk (replaceChar ',' '.' fqStr.data)))
      let mode ← req r.mode
      let pwStr ← req r.power
      let power ← if isBlankStr pwStr then pure 5 else req (pyInt? pwStr)
      let paStr ← req r.pause
      let pause ← if isBlankStr paStr then pure 60 else req (pyInt? paStr)
      if dur ≤ 0 then return []
      else if endDay < startDay then return []
      else
        return expandDays now set_folder endDay timeMin dur freq mode power
          pause ((endDay - startDay).toNat + 1) startDay

/-- The row loop of `parse_schedule`: the first exception aborts the
whole loop (it is caught only by the `try` wrapping the entire file,
transmitter.py:301/357). -/
def parseRows (now : Int) (set_folder : String) :
    List Row → Except Unit (List Sched)
  | [] => .ok []
  | r :: rs => do
    let h ← parseRow now set_folder r
    let t ← parseRows now set_folder rs
    return h ++ t

/-- `parse_schedule` (transmitter.py:298-362): on any exception the
whole file is dropped and the empty list returned. -/
def parse_schedule (now : Int) (set_folder : String) (rows : List Row) :
    List Sched :=
  match parseRows now set_folder rows with
  | .ok l => l
  | .error _ => []

/-! ## Sorting

`sorted(..., key=...)` is modelled by a stable insertion sort
parameterised by a boolean strict comparison on the sort key: an element
is inserted after every element whose key is strictly smaller, hence
before equal keys, which is exactly Python's stable sort order. -/

/-- Lexicographic comparison of character lists — Python `str` `<`. -/
def charListLt : List Char → List Char → Bool
  | [], [] => false
  | [], _ :: _ => true
  | _ :: _, [] => false
  | a :: as, b :: bs =>
    if a < b then true else if b < a then false else charListLt as bs

/-- Python string comparison. -/
def strLtb (s t : String) : Bool := charListLt s.data t.data

/-- Insert `a` after every element comparing strictly below it. -/
def insBy (ltb : α → α → Bool) (a : α) : List α → List α
  | [] => [a]
  | b :: bs => if ltb b a then b :: insBy ltb a bs else a :: b :: bs

/-- Stable insertion sort by a boolean strict comparison. -/
def sortBy (ltb : α → α → Bool) : List α → List α
  | [] => []
  | x :: xs => insBy ltb x (sortBy ltb xs)

/-- The key comparison of `sorted(schedules, key=lambda x:
x['start_datetime'])` (transmitter.py:377). -/
def schedLt (a b : Sched) : Bool := a.start_datetime < b.start_datetime

/-! ## Overlap check and schedule loading -/

/-- Inner loop of `check_overlaps`: some later schedule starts before
`x` ends (transmitter.py:379-380). -/
def anyStartsBeforeEnd (x : Sched) (ys : List Sched) : Bool :=
  ys.any (fun y => y.start_datetime < x.end_datetime)

/-- The double loop of `check_overlaps` over the sorted list: true iff
some pair `i < j` has `sorted[j].start_datetime <
sorted[i].end_datetime`. -/
def allPairsBad : List Sched → Bool
  | [] => false
  | x :: xs => anyStartsBeforeEnd x xs || allPairsBad xs

/-- The `ValueError` message raised on overlap (transmitter.py:383). -/
def overlapMsg : String := "Overlapping schedules detected."

/-- `check_overlaps` (transmitter.py:376-383): sorts by start and raises
when any pair overlaps. -/
def check_overlaps (l : List Sched) : Except String Unit :=
  if allPairsBad (sortBy schedLt l) then .error overlapMsg else .ok ()

/-- One immediate subdirectory of the library root: its name, whether it
contains a `schedule.csv`, and that file's parsed rows. -/
structure SetDir where
  name : String
  hasSchedule : Bool
  rows : List Row
deriving DecidableEq

/-- `load_and_check_schedules` (transmitter.py:386-405): parse the
schedule of every set that has one (sets without one are skipped with a
warning), concatenate, and run the overlap check; the concatenation is
returned unchanged. -/
def load_and_check_schedules (now : Int) (lib : List SetDir) :
    Except String (List Sched) :=
  let all :=
    ((lib.filter (·.hasSchedule)).map
      (fun s => parse_schedule now s.name s.rows)).flatten
  match check_overlaps all with
  | .error e => .error e
  | .ok _ => .ok all

/-- The supervisor's reload step (transmitter.py:459-465): on a load
error the exception is caught, a warning logged, and the previous
in-memory schedule list kept (the assignment never happens). -/
def mainReload (prev : List Sched) (now : Int) (lib : List SetDir) :
    List Sched :=
  match load_and_check_schedules now lib with
  | .ok s => s
  | .error _ => prev

/-! ## Mode table and supervisor dispatch -/

/-- The Hamlib mode constants used by `parse_mode`. -/
inductive RigMode
  | PKTUSB | PKTLSB | FM | FMN | AM
deriving DecidableEq

/-- `parse_mode` (transmitter.py:283-295): the five accepted mode
strings; anything else raises `ValueError`. -/
def parse_mode (mode : String) : Except String RigMode :=
  if mode = "USB" then .ok .PKTUSB
  else if mode = "LSB" then .ok .PKTLSB
  else if mode = "FM" then .ok .FM
  else if mode = "FMN" then .ok .FMN
  else if mode = "AM" then .ok .AM
  else .error ("Invalid mode: " ++ mode)

/-- The active-window test of the main loop (transmitter.py:480). -/
def activeAt (now : Int) (s : Sched) : Bool :=
  decide (s.start_datetime ≤ now) && decide (now < s.end_datetime)

/-- The dispatch loop over schedules in one main-loop cycle
(transmitter.py:474-506): each active row is fired, which evaluates
`parse_mode(row['mode'])` with no surrounding handler, so a `ValueError`
escapes the cycle.  Returns the `transmitted` flag. -/
def fireSchedules (now : Int) : List Sched → Except String Bool
  | [] => .ok false
  | row :: rest =>
    if activeAt now row then
      match parse_mode row.mode with
      | .error e => .error e
      | .ok _ =>
        match fireSchedules now rest with
        | .error e => .error e
        | .ok _ => .ok true
    else fireSchedules now rest

/-- The supervisor `while running` loop (transmitter.py:445-523),
abstracted over the sequence of clock readings it makes while `running`
holds; it ends cleanly when `running` is cleared, and an exception
escaping a cycle ends it abnormally (there is no handler around the
dispatch). -/
def supervisorLoop (schedules : List Sched) : List Int → Except String Unit
  | [] => .ok ()
  | now :: rest =>
    match fireSchedules now schedules with
    | .error e => .error e
    | .ok _ => supervisorLoop schedules rest

/-! ## Fire-time audio file enumeration -/

/-- Boolean list-prefix test. -/
def isPrefixB : List Char → List Char → Bool
  | [], _ => true
  | _ :: _, [] => false
  | a :: as, b :: bs => a = b && isPrefixB as bs

/-- Glob suffix match: `glob("*.ext")` keeps names ending in `.ext`. -/
def hasSuffixB (suffix s : String) : Bool :=
  isPrefixB suffix.data.reverse s.data.reverse

/-- The file enumeration of `transmit` (transmitter.py:212-214):
`sorted(glob("*.wav"))` then, appended after it,
`sorted(glob("*.mp3"))`. -/
def listAudioFiles (folder : List String) : List String :=
  sortBy strLtb (folder.filter (hasSuffixB ".wav"))
    ++ sortBy strLtb (folder.filter (hasSuffixB ".mp3"))

/-- Modelled from the spec for comparison: "File ordering is ascending
lexical on filename, `.wav` and `.mp3` interleaved in that single
order". -/
def specAudioFiles (folder : List String) : List String :=
  sortBy strLtb
    (folder.filter (fun f => hasSuffixB ".wav" f || hasSuffixB ".mp3" f))

/-- Modelled from the spec for comparison: the single linear sweep of
the sorted list, failing when `occurrences[i].end >
occurrences[i+1].start` for some adjacent pair. -/
def specAdjacentSweep : List Sched → Bool
  | a :: b :: rest =>
    (b.start_datetime < a.end_datetime) || specAdjacentSweep (b :: rest)
  | _ => false

/-! ## PTT command trace of `transmit` -/

/-- A `set_ptt` command issued to the rig. -/
inductive PttEvent
  | on | off
deriving DecidableEq

/-- The outcome of one file iteration of `transmit`'s loop
(transmitter.py:216-271): whether `sf.read` succeeded, whether the
playback block raised an exception (caught at line 257), whether the
shutdown flag was observed during playback (line 251), and whether it
was observed during the pause countdown (line 269). -/
structure FileOutcome where
  decodeOk : Bool
  playRaises : Bool
  shutdownDuringPlay : Bool
  shutdownDuringPause : Bool
deriving DecidableEq

/-- PTT commands issued during one file iteration, and whether the loop
continues to the next file.  A decode failure `continue`s before any PTT
command; otherwise PTT ON is issued, and the `finally` (line 261) issues
PTT OFF on the normal path, the exception path, and the
shutdown-break path alike. -/
def fileTrace (f : FileOutcome) : List PttEvent × Bool :=
  if f.decodeOk = false then ([], true)
  else if f.shutdownDuringPlay then ([.on, .off], false)
  else if f.playRaises then ([.on, .off], !f.shutdownDuringPause)
  else ([.on, .off], !f.shutdownDuringPause)

/-- The file loop of `transmit`. -/
def transmitGo : List FileOutcome → List PttEvent
  | [] => []
  | f :: fs => (fileTrace f).1 ++ (if (fileTrace f).2 then transmitGo fs else [])

/-- The PTT command trace of one `transmit` call: when the admission
check returns `False` the call returns before keying
(transmitter.py:208-210), otherwise the file loop runs. -/
def transmitTrace (admitted : Bool) (files : List FileOutcome) :
    List PttEvent :=
  if admitted then transmitGo files else []

/-- The PTT line state after a command trace (last command wins;
initially off). -/
def finalPtt (tr : List PttEvent) : Bool :=
  tr.foldl (fun _keyed e => match e with | .on => true | .off => false) false

/-- Strict ON/OFF alternation from a given keyed state: ON only when
unkeyed, OFF only when keyed. -/
def strictAlt : Bool → List PttEvent → Bool
  | _, [] => true
  | keyed, .on :: r => !keyed && strictAlt true r
  | keyed, .off :: r => keyed && strictAlt false r

/-- Number of PTT ON commands in a trace. -/
def countOn (tr : List PttEvent) : Nat :=
  tr.countP (fun e => e = PttEvent.on)

/-! ## Admission check -/

/-- `check_signal_power` (transmitter.py:185-196), with time abstracted
to elapsed seconds `e` advancing in the 10-second steps of the loop.
`runningF`/`signal` give the flag and the S-meter reading at each
elapsed time.  Returns the elapsed time at return together with the
returned boolean. -/
def check_signal_power (runningF : Nat → Bool) (signal : Nat → Int)
    (threshold : Int) (maxWait : Nat) (e : Nat) : Nat × Bool :=
  if runningF e then
    if signal e < threshold then (e, true)
    else if maxWait < e then (e, true)
    else check_signal_power runningF signal threshold maxWait (e + 10)
  else (e, false)
termination_by maxWait + 10 - e
decreasing_by omega

/-! ## Concrete instances used as test inputs -/

/-- A well-formed schedule row: 1 day, 10:00 for 10 minutes. -/
def rowGood : Row :=
  { startDate := some "02.01.2030", endDate := some "02.01.2030",
    startTime := some "10:00", duration := some "10",
    frequency := some "14.074", mode := some "USB",
    power := some "5", pause := some "60" }

/-- Same row with an unparseable duration (Python `int("x")` raises). -/
def rowBadDur : Row := { rowGood with duration := some "x" }

/-- Same row with a whitespace-only Start Date (skipped at line 312). -/
def rowBlank : Row := { rowGood with startDate := some " " }

/-- A library with two non-overlapping sets whose enumeration order is
the reverse of their start order. -/
def c6lib : List SetDir :=
  [⟨"setA", true, [rowGood]⟩,
   ⟨"setB", true, [{ rowGood with startTime := some "05:00" }]⟩]

/-- The 10:00 occurrence of `c6lib` (day 21916 of the civil epoch). -/
def c6occA : Sched :=
  { set_folder := "setA", start_datetime := 31559640,
    end_datetime := 31559650, duration := 10, frequency := ⟨14074, 3⟩,
    mode := "USB", power := 5, pause := 60 }

/-- The 05:00 occurrence of `c6lib`. -/
def c6occB : Sched :=
  { set_folder := "setB", start_datetime := 31559340,
    end_datetime := 31559350, duration := 10, frequency := ⟨14074, 3⟩,
    mode := "USB", power := 5, pause := 60 }

/-- An occurrence sharing `c6occA`'s start in a different set. -/
def c7occ : Sched := { c6occA with set_folder := "setB" }

/-- A library whose two sets contain the same row, hence overlapping
occurrences. -/
def c4lib : List SetDir :=
  [⟨"setA", true, [rowGood]⟩, ⟨"setB", true, [rowGood]⟩]

/-- An occurrence whose mode string is outside the accepted set. -/
def badModeSched : Sched :=
  { set_folder := "setA", start_datetime := 0, end_datetime := 10,
    duration := 10, frequency := ⟨14, 0⟩, mode := "XYZ", power := 5,
    pause := 60 }

/-! ## Lemmas about the insertion sort -/

theorem insBy_perm (ltb : α → α → Bool) (a : α) (l : List α) :
    (insBy ltb a l).Perm (a :: l) := by
  induction l with
  | nil => simp [insBy]
  | cons b bs ih =>
    simp only [insBy]
    split
    · exact (ih.cons b).trans (List.Perm.swap a b bs)
    · exact List.Perm.refl _

theorem sortBy_perm (ltb : α → α → Bool) (l : List α) :
    (sortBy ltb l).Perm l := by
  induction l with
  | nil => simp [sortBy]
  | cons x xs ih => exact (insBy_perm ltb x (sortBy ltb xs)).trans (ih.cons x)

theorem insBy_pairwise {ltb : α → α → Bool}
    (hasym : ∀ x y, ltb x y = true → ltb y x = false)
    (hneg : ∀ x y z, ltb y x = false → ltb z y = false → ltb z x = false)
    (a : α) {l : List α} (hl : l.Pairwise (fun x y => ltb y x = false)) :
    (insBy ltb a l).Pairwise (fun x y => ltb y x = false) := by
  induction l with
  | nil => simp [insBy]
  | cons b bs ih =>
    rcases List.pairwise_cons.mp hl with ⟨hb, hbs⟩
    simp only [insBy]
    split
    case isTrue hba =>
      refine List.pairwise_cons.mpr ⟨?_, ih hbs⟩
      intro c hc
      rcases List.mem_cons.mp ((insBy_perm ltb a bs).mem_iff.mp hc) with rfl | hcbs
      · exact hasym b c hba
      · exact hb c hcbs
    case isFalse hba =>
      refine List.pairwise_cons.mpr ⟨?_, hl⟩
      intro c hc
      rcases List.mem_cons.mp hc with rfl | hcbs
      · simpa using hba
      · exact hneg a b c (by simpa using hba) (hb c hcbs)

theorem sortBy_pairwise {ltb : α → α → Bool}
    (hasym : ∀ x y, ltb x y = true → ltb y x = false)
    (hneg : ∀ x y z, ltb y x = false → ltb z y = false → ltb z x = false)
    (l : List α) :
    (sortBy ltb l).Pairwise (fun x y => ltb y x = false) := by
  induction l with
  | nil => simp [sortBy]
  | cons x xs ih => exact insBy_pairwise hasym hneg x ih

theorem schedLt_asym (a b : Sched) :
    schedLt a b = true → schedLt b a = false := by
  simp only [schedLt, decide_eq_true_eq, decide_eq_false_iff_not]
  omega

theorem schedLt_negtrans (a b c : Sched) :
    schedLt b a = false → schedLt c b = false → schedLt c a = false := by
  simp only [schedLt, decide_eq_false_iff_not]
  omega

/-- The list handed to the overlap loops is sorted by start. -/
theorem sortBy_schedLt_sorted (l : List Sched) :
    (sortBy schedLt l).Pairwise
      (fun x y => x.start_datetime ≤ y.start_datetime) := by
  refine (sortBy_pairwise schedLt_asym schedLt_negtrans l).imp ?_
  intro x y hxy
  simp only [schedLt, decide_eq_false_iff_not, not_lt] at hxy
  exact hxy

/-! ## Characterisation of the overlap check -/

theorem allPairsBad_iff {s : List Sched} :
    allPairsBad s = true ↔
      ∃ a b, [a, b].Sublist s ∧ b.start_datetime < a.end_datetime := by
  induction s with
  | nil =>
    simp only [allPairsBad, Bool.false_eq_true, false_iff, not_exists]
    intro a b h
    simp at h
  | cons x xs ih =>
    simp only [allPairsBad, Bool.or_eq_true, anyStartsBeforeEnd,
      List.any_eq_true, decide_eq_true_eq, ih]
    constructor
    · rintro (⟨y, hy, hlt⟩ | ⟨a, b, hsub, hlt⟩)
      · exact ⟨x, y, (List.singleton_sublist.mpr hy).cons₂ x, hlt⟩
      · exact ⟨a, b, hsub.cons x, hlt⟩
    · rintro ⟨a, b, hsub, hlt⟩
      cases hsub with
      | cons _ h => exact Or.inr ⟨a, b, h, hlt⟩
      | cons₂ _ h => exact Or.inl ⟨b, List.singleton_sublist.mp h, hlt⟩

theorem adj_imp_allPairs {s : List Sched}
    (h : specAdjacentSweep s = true) : allPairsBad s = true := by
  induction s with
  | nil => simp [specAdjacentSweep] at h
  | cons x xs ih =>
    cases xs with
    | nil => simp [specAdjacentSweep] at h
    | cons y ys =>
      simp only [specAdjacentSweep, Bool.or_eq_true, decide_eq_true_eq] at h
      rcases h with h | h
      · refine allPairsBad_iff.mpr ⟨x, y, ?_, h⟩
        exact ((List.nil_sublist ys).cons₂ y).cons₂ x
      · have hb := ih h
        show (anyStartsBeforeEnd x (y :: ys) || allPairsBad (y :: ys)) = true
        simp [hb]

theorem allPairs_imp_adj {s : List Sched}
    (hsort : s.Pairwise (fun x y => x.start_datetime ≤ y.start_datetime))
    (h : allPairsBad s = true) : specAdjacentSweep s = true := by
  induction s with
  | nil => simp [allPairsBad] at h
  | cons x xs ih =>
    rcases List.pairwise_cons.mp hsort with ⟨hx, hxs⟩
    simp only [allPairsBad, Bool.or_eq_true, anyStartsBeforeEnd,
      List.any_eq_true, decide_eq_true_eq] at h
    cases xs with
    | nil =>
      rcases h with ⟨y, hy, _⟩ | h
      · simp at hy
      · simp [allPairsBad] at h
    | cons y ys =>
      simp only [specAdjacentSweep, Bool.or_eq_true, decide_eq_true_eq]
      rcases h with ⟨z, hz, hlt⟩ | h
      · left
        have hyz : y.start_datetime ≤ z.start_datetime := by
          rcases List.mem_cons.mp hz with rfl | hz'
          · exact le_refl _
          · exact (List.pairwise_cons.mp hxs).1 z hz'
        omega
      · exact Or.inr (ih hxs h)

theorem two_mem_of_filter_le {α : Type} {p : α → Bool} {s : List α}
    (h : 2 ≤ (s.filter p).length) :
    ∃ u v, [u, v].Sublist s ∧ p u = true ∧ p v = true := by
  match hf : s.filter p with
  | [] => rw [hf] at h; simp at h
  | [u] => rw [hf] at h; simp at h
  | u :: v :: rest =>
    have hfs : [u, v].Sublist (s.filter p) := by
      rw [hf]
      exact ((List.nil_sublist rest).cons₂ v).cons₂ u
    have hum : u ∈ s.filter p := by rw [hf]; exact List.mem_cons_self u _
    have hvm : v ∈ s.filter p := by
      rw [hf]
      exact List.mem_cons_of_mem u (List.mem_cons_self v _)
    exact ⟨u, v, hfs.trans (List.filter_sublist s),
      (List.mem_filter.mp hum).2, (List.mem_filter.mp hvm).2⟩

/-- Two occurrences with the same start (at distinct positions) make the
all-pairs loop fire, provided every occurrence has positive length. -/
theorem duplicate_start_overlaps {l : List Sched} {a b : Sched}
    (h : ∀ o ∈ l, o.start_datetime < o.end_datetime)
    (hsubl : [a, b].Sublist l)
    (hab : a.start_datetime = b.start_datetime) :
    allPairsBad (sortBy schedLt l) = true := by
  set pd : Sched → Bool :=
    fun o => decide (o.start_datetime = a.start_datetime) with hpd
  have hcab : [a, b].countP pd = 2 := by
    simp [hpd, List.countP_cons, hab.symm]
  have hcount : 2 ≤ (sortBy schedLt l).countP pd := by
    rw [(sortBy_perm schedLt l).countP_eq]
    have hle : [a, b].countP pd ≤ l.countP pd := hsubl.countP_le pd
    omega
  have hflen : 2 ≤ ((sortBy schedLt l).filter pd).length := by
    rw [← List.countP_eq_length_filter]
    exact hcount
  obtain ⟨u, v, hsub2, hu, hv⟩ := two_mem_of_filter_le hflen
  have huL : u ∈ l :=
    (sortBy_perm schedLt l).mem_iff.mp (hsub2.subset (List.mem_cons_self u _))
  simp only [hpd, decide_eq_true_eq] at hu hv
  have := h u huL
  exact allPairsBad_iff.mpr ⟨u, v, hsub2, by omega⟩

/-- C7: provided every occurrence has `end_datetime > start_datetime`,
the implemented all-pairs overlap check (`check_overlaps`) fails exactly
when the spec's single linear sweep over the list sorted by
`start_datetime` finds an adjacent pair with `end > next start`; and any
two occurrences with equal `start_datetime` make the load fail as an
overlap. -/
theorem c7_overlap_refinement (l : List Sched)
    (h : ∀ o ∈ l, o.start_datetime < o.end_datetime) :
    (check_overlaps l = .error overlapMsg ↔
      specAdjacentSweep (sortBy schedLt l) = true)
    ∧ (∀ a b l₁ l₂ l₃, l = l₁ ++ a :: l₂ ++ b :: l₃ →
        a.start_datetime = b.start_datetime →
        check_overlaps l = .error overlapMsg) := by
  constructor
  · constructor
    · intro he
      by_cases hb : allPairsBad (sortBy schedLt l) = true
      · exact allPairs_imp_adj (sortBy_schedLt_sorted l) hb
      · rw [check_overlaps, if_neg hb] at he
        simp at he
    · intro ha
      rw [check_overlaps, if_pos (adj_imp_allPairs ha)]
  · intro a b l₁ l₂ l₃ hl hab
    have hsubl : [a, b].Sublist l := by
      rw [hl]
      have h1 : [a].Sublist (l₁ ++ a :: l₂) :=
        ((List.nil_sublist l₂).cons₂ a).trans (List.sublist_append_right l₁ _)
      have h2 : [b].Sublist (b :: l₃) := (List.nil_sublist l₃).cons₂ b
      exact h1.append h2
    rw [check_overlaps, if_pos (duplicate_start_overlaps h hsubl hab)]

/-- C8: for every occurrence list accepted by `check_overlaps` and every
instant `now`, at most one occurrence is inside its transmission window,
so the main loop's active-window test fires at most one occurrence per
cycle. -/
theorem c8_single_active (l : List Sched) (now : Int)
    (h : check_overlaps l = .ok ()) :
    (l.filter (activeAt now)).length ≤ 1 := by
  by_contra hlen
  push_neg at hlen
  have hb : ¬ allPairsBad (sortBy schedLt l) = true := by
    intro hb
    rw [check_overlaps, if_pos hb] at h
    simp at h
  apply hb
  have hflen : 2 ≤ ((sortBy schedLt l).filter (activeAt now)).length := by
    have hperm := ((sortBy_perm schedLt l).filter (activeAt now)).length_eq
    omega
  obtain ⟨u, v, hsub2, hu, hv⟩ := two_mem_of_filter_le hflen
  simp only [activeAt, Bool.and_eq_true, decide_eq_true_eq] at hu hv
  exact allPairsBad_iff.mpr ⟨u, v, hsub2, by omega⟩

/-! ## Load atomicity, load order, parser error containment -/

theorem except_bind_ok (a : α) (f : α → Except ε β) :
    (Except.ok a >>= f : Except ε β) = f a := rfl

theorem except_bind_error (e : ε) (f : α → Except ε β) :
    ((Except.error e : Except ε α) >>= f) = Except.error e := rfl

theorem except_map_ok (f : α → β) (a : α) :
    (f <$> (Except.ok a : Except ε α)) = .ok (f a) := rfl

theorem except_map_error (f : α → β) (e : ε) :
    (f <$> (Except.error e : Except ε α)) = .error e := rfl

/-- C4: when a schedule reload fails (in particular with the overlap
error `ValueError`), the supervisor catches the exception, only logs a
warning, and its in-memory schedule list is exactly what it was before
the failed load. -/
theorem c4_reload_atomic (prev : List Sched) (now : Int) (lib : List SetDir)
    (e : String) (h : load_and_check_schedules now lib = .error e) :
    mainReload prev now lib = prev := by
  simp [mainReload, h]

/-- C6 counterexample: a library whose sets are enumerated against start
order loads successfully, and the list handed to the supervisor has its
second occurrence starting before its first — it is not sorted by
`start_datetime`. -/
theorem c6_counterexample :
    (load_and_check_schedules 0 c6lib).toOption.map
        (List.map Sched.start_datetime)
      = some [31559640, 31559340]
    ∧ ¬ ((31559640 : Int) ≤ 31559340) := by
  constructor
  · rfl
  · decide

/-- C6 (amended): `load_and_check_schedules` enumerates the sets,
parses each `schedule.csv`, and returns the per-file occurrence lists
concatenated in enumeration order — not sorted by `start_datetime`
(only the overlap sweep works on a sorted copy); on success the returned
list is overlap-free: in start order, each occurrence ends no later than
the next one starts. -/
theorem c6_load_concat (now : Int) (lib : List SetDir) (l : List Sched)
    (h : load_and_check_schedules now lib = .ok l) :
    l = ((lib.filter (·.hasSchedule)).map
        (fun s => parse_schedule now s.name s.rows)).flatten
    ∧ (∀ a b, [a, b].Sublist (sortBy schedLt l) →
        a.end_datetime ≤ b.start_datetime) := by
  cases hco : check_overlaps (((lib.filter (·.hasSchedule)).map
      (fun s => parse_schedule now s.name s.rows)).flatten) with
  | error e =>
    rw [load_and_check_schedules] at h
    rw [hco] at h
    cases h
  | ok u =>
    rw [load_and_check_schedules] at h
    rw [hco] at h
    cases h
    refine ⟨rfl, ?_⟩
    intro a b hsub
    by_contra hlt
    have hbad := allPairsBad_iff.mpr ⟨a, b, hsub, by omega⟩
    rw [check_overlaps, if_pos hbad] at hco
    cases hco

/-- An exception raised in any row aborts the whole row loop. -/
theorem parseRows_error (now : Int) (f : String) {r' : Row}
    (h : parseRow now f r' = .error ()) (rs₁ rs₂ : List Row) :
    parseRows now f (rs₁ ++ r' :: rs₂) = .error () := by
  induction rs₁ with
  | nil => simp [parseRows, h, except_bind_error]
  | cons x xs ih =>
    cases hx : parseRow now f x with
    | error e => simp [parseRows, hx, except_bind_error]
    | ok t =>
      simp [parseRows, hx, ih, except_bind_ok, except_bind_error,
        except_map_error]

/-- C2 counterexample: a file whose first row has an unparseable
duration and whose second row is well formed yields no occurrences at
all — the well-formed row of the same file is lost, not just the
malformed one. -/
theorem c2_counterexample :
    parse_schedule 0 "setA" [rowBadDur, rowGood] = []
    ∧ parse_schedule 0 "setA" [rowGood] ≠ [] := by
  constructor
  · rfl
  · decide

/-- C2 (amended): a row with a missing or blank Start Date (and rows
failing the explicit validations) is skipped and parsing continues with
the remaining rows, but a parse failure of any other field of a row
(dates, time, duration, frequency, power, pause) raises, and the
exception aborts the whole file: `parse_schedule` returns the empty
list, dropping the well-formed rows of that file too. -/
theorem c2_row_skip_file_abort (now : Int) (f : String) (r r' r₀ : Row)
    (rs rs₁ rs₂ : List Row)
    (h1 : parseRow now f r = .ok [])
    (h2 : parseRow now f r' = .error ())
    (h0 : r₀.startDate = none) :
    parse_schedule now f (r :: rs) = parse_schedule now f rs
    ∧ parse_schedule now f (rs₁ ++ r' :: rs₂) = []
    ∧ parseRow now f r₀ = .ok [] := by
  refine ⟨?_, ?_, ?_⟩
  · cases ht : parseRows now f rs with
    | error e =>
      simp [parse_schedule, parseRows, h1, ht, except_bind_ok,
        except_map_error]
    | ok t =>
      simp [parse_schedule, parseRows, h1, ht, except_bind_ok,
        except_map_ok]
  · simp [parse_schedule, parseRows_error now f h2 rs₁ rs₂]
  · simp [parseRow, h0]

/-! ## Mode errors escape the supervisor loop -/

/-- C3 counterexample: one supervisor cycle over a single active
occurrence with mode `"XYZ"` ends the supervisor loop with the
`ValueError` from `parse_mode` — the loop does not proceed to the next
scheduling cycle. -/
theorem c3_counterexample :
    supervisorLoop [badModeSched] [5] = .error "Invalid mode: XYZ" := by
  rfl

/-- C3 (amended): a mode string outside `{USB, LSB, FM, FMN, AM}` does
raise `ValueError` at fire time, but the main loop has no handler around
the dispatch, so the error propagates out of the cycle and the
supervisor loop exits abnormally instead of continuing to the next
cycle. -/
theorem c3_mode_error_exits (m : String) (row : Sched) (rest : List Sched)
    (now : Int) (nows : List Int) (e : String)
    (hm : m ≠ "USB" ∧ m ≠ "LSB" ∧ m ≠ "FM" ∧ m ≠ "FMN" ∧ m ≠ "AM")
    (hact : activeAt now row = true)
    (hmode : parse_mode row.mode = .error e) :
    parse_mode m = .error ("Invalid mode: " ++ m)
    ∧ fireSchedules now (row :: rest) = .error e
    ∧ supervisorLoop (row :: rest) (now :: nows) = .error e := by
  obtain ⟨hm1, hm2, hm3, hm4, hm5⟩ := hm
  have hf : fireSchedules now (row :: rest) = .error e := by
    simp [fireSchedules, hact, hmode]
  refine ⟨?_, hf, ?_⟩
  · simp [parse_mode, hm1, hm2, hm3, hm4, hm5]
  · simp [supervisorLoop, hf]

/-! ## The string order and the fire-time file list -/

theorem charListLt_irrefl : ∀ x : List Char, charListLt x x = false
  | [] => rfl
  | a :: as => by
    rw [charListLt, if_neg (lt_irrefl a), if_neg (lt_irrefl a)]
    exact charListLt_irrefl as

theorem charListLt_trans :
    ∀ x y z : List Char, charListLt x y = true → charListLt y z = true →
      charListLt x z = true := by
  intro x
  induction x with
  | nil =>
    intro y z h₁ h₂
    cases y with
    | nil => simp [charListLt] at h₁
    | cons b bs =>
      cases z with
      | nil => simp [charListLt] at h₂
      | cons c cs => simp [charListLt]
  | cons a as ih =>
    intro y z h₁ h₂
    cases y with
    | nil => simp [charListLt] at h₁
    | cons b bs =>
      cases z with
      | nil => simp [charListLt] at h₂
      | cons c cs =>
        rw [charListLt] at h₁ h₂ ⊢
        by_cases hab : a < b
        · by_cases hbc : b < c
          · rw [if_pos (lt_trans hab hbc)]
          · by_cases hcb : c < b
            · rw [if_neg hbc, if_pos hcb] at h₂; cases h₂
            · have hbceq : b = c :=
                le_antisymm (not_lt.mp hcb) (not_lt.mp hbc)
              subst hbceq
              rw [if_pos hab]
        · by_cases hba : b < a
          · rw [if_neg hab, if_pos hba] at h₁; cases h₁
          · have habeq : a = b := le_antisymm (not_lt.mp hba) (not_lt.mp hab)
            subst habeq
            rw [if_neg (lt_irrefl a), if_neg (lt_irrefl a)] at h₁
            by_cases hac : a < c
            · rw [if_pos hac]
            · by_cases hca : c < a
              · rw [if_neg hac, if_pos hca] at h₂; cases h₂
              · have haceq : a = c :=
                  le_antisymm (not_lt.mp hca) (not_lt.mp hac)
                subst haceq
                rw [if_neg (lt_irrefl a), if_neg (lt_irrefl a)] at h₂
                rw [if_neg (lt_irrefl a), if_neg (lt_irrefl a)]
                exact ih bs cs h₁ h₂

theorem charListLt_total :
    ∀ x y : List Char,
      charListLt x y = true ∨ charListLt y x = true ∨ x = y
  | [], [] => Or.inr (Or.inr rfl)
  | [], _ :: _ => Or.inl rfl
  | _ :: _, [] => Or.inr (Or.inl rfl)
  | a :: as, b :: bs => by
    rcases lt_trichotomy a b with h | h | h
    · left; rw [charListLt, if_pos h]
    · subst h
      rcases charListLt_total as bs with h' | h' | h'
      · left
        rw [charListLt, if_neg (lt_irrefl a), if_neg (lt_irrefl a)]
        exact h'
      · right; left
        rw [charListLt, if_neg (lt_irrefl a), if_neg (lt_irrefl a)]
        exact h'
      · right; right; rw [h']
    · right; left; rw [charListLt, if_pos h]

theorem charListLt_asym (x y : List Char) (h : charListLt x y = true) :
    charListLt y x = false := by
  cases hyx : charListLt y x with
  | false => rfl
  | true =>
    have hxx := charListLt_trans x y x h hyx
    rw [charListLt_irrefl] at hxx
    cases hxx

theorem charListLt_negtrans (x y z : List Char)
    (h1 : charListLt y x = false) (h2 : charListLt z y = false) :
    charListLt z x = false := by
  cases hzx : charListLt z x with
  | false => rfl
  | true =>
    exfalso
    rcases charListLt_total x y with h | h | h
    · have hzy := charListLt_trans z x y hzx h
      rw [h2] at hzy
      cases hzy
    · rw [h1] at h
      cases h
    · subst h
      rw [h2] at hzx
      cases hzx

theorem strLtb_asym (s t : String) :
    strLtb s t = true → strLtb t s = false :=
  charListLt_asym s.data t.data

theorem strLtb_negtrans (s t u : String) :
    strLtb t s = false → strLtb u t = false → strLtb u s = false :=
  charListLt_negtrans s.data t.data u.data

theorem filter_or_perm {α : Type} (p q : α → Bool) (l : List α)
    (hdisj : ∀ x, ¬(p x = true ∧ q x = true)) :
    (l.filter p ++ l.filter q).Perm
      (l.filter (fun x => p x || q x)) := by
  induction l with
  | nil => simp
  | cons x xs ih =>
    by_cases hp : p x = true
    · have hq : q x = false := by
        cases hqx : q x
        · rfl
        · exact absurd ⟨hp, hqx⟩ (hdisj x)
      simp only [List.filter_cons, hp, hq, Bool.or_false, Bool.true_or,
        if_true, List.cons_append]
      exact ih.cons x
    · have hp' : p x = false := by simpa using hp
      by_cases hq : q x = true
      · simp only [List.filter_cons, hp', hq, Bool.false_or, if_true,
          if_false]
        exact List.perm_middle.trans (ih.cons x)
      · have hq' : q x = false := by simpa using hq
        simp only [List.filter_cons, hp', hq', Bool.false_or, if_false]
        exact ih

theorem wav_mp3_disjoint (f : String) :
    ¬(hasSuffixB ".wav" f = true ∧ hasSuffixB ".mp3" f = true) := by
  rintro ⟨h1, h2⟩
  rw [hasSuffixB] at h1 h2
  have e1 : (".wav" : String).data.reverse = ['v', 'a', 'w', '.'] := by
    decide
  have e2 : (".mp3" : String).data.reverse = ['3', 'p', 'm', '.'] := by
    decide
  rw [e1] at h1
  rw [e2] at h2
  cases hr : f.data.reverse with
  | nil =>
    rw [hr] at h1
    simp [isPrefixB] at h1
  | cons c cs =>
    rw [hr] at h1 h2
    simp only [isPrefixB, Bool.and_eq_true, decide_eq_true_eq] at h1 h2
    obtain ⟨hv, -⟩ := h1
    obtain ⟨h3, -⟩ := h2
    rw [← hv] at h3
    exact absurd h3 (by decide)

/-- C5 counterexample: with both extensions present, the broadcast
order is all `.wav` files first and all `.mp3` files after, not the
single interleaved ascending lexical order of the spec. -/
theorem c5_counterexample :
    listAudioFiles ["a.mp3", "b.wav"] = ["b.wav", "a.mp3"]
    ∧ listAudioFiles ["a.mp3", "b.wav"] ≠ specAudioFiles ["a.mp3", "b.wav"] := by
  constructor
  · rfl
  · decide

/-- C5 (amended): the files broadcast at fire time are exactly the
folder's `.wav` and `.mp3` files, but their order is the ascending
lexical `.wav` files followed by the ascending lexical `.mp3` files —
grouped by extension, not interleaved. -/
theorem c5_files_grouped (folder : List String) :
    (listAudioFiles folder).Perm
      (folder.filter (fun f => hasSuffixB ".wav" f || hasSuffixB ".mp3" f))
    ∧ ∃ w m, listAudioFiles folder = w ++ m
      ∧ (∀ f ∈ w, hasSuffixB ".wav" f = true)
      ∧ (∀ f ∈ m, hasSuffixB ".mp3" f = true)
      ∧ w.Pairwise (fun s t => strLtb t s = false)
      ∧ m.Pairwise (fun s t => strLtb t s = false) := by
  constructor
  · exact ((sortBy_perm strLtb _).append (sortBy_perm strLtb _)).trans
      (filter_or_perm _ _ folder wav_mp3_disjoint)
  · refine ⟨sortBy strLtb (folder.filter (hasSuffixB ".wav")),
      sortBy strLtb (folder.filter (hasSuffixB ".mp3")), rfl, ?_, ?_, ?_, ?_⟩
    · intro f hf
      exact (List.mem_filter.mp ((sortBy_perm strLtb _).mem_iff.mp hf)).2
    · intro f hf
      exact (List.mem_filter.mp ((sortBy_perm strLtb _).mem_iff.mp hf)).2
    · exact sortBy_pairwise strLtb_asym strLtb_negtrans _
    · exact sortBy_pairwise strLtb_asym strLtb_negtrans _

/-! ## PTT safety and alternation -/

theorem fileTrace_shape (f : FileOutcome) :
    (fileTrace f).1 = [] ∨ (fileTrace f).1 = [.on, .off] := by
  rw [fileTrace]
  split
  · left; rfl
  · split
    · right; rfl
    · split
      · right; rfl
      · right; rfl

theorem ptt_follows_nil :
    ∀ p s : List PttEvent, ([] : List PttEvent) = p ++ .on :: s →
      PttEvent.off ∈ s := by
  intro p s h
  exact absurd h.symm (by simp)

theorem ptt_follows_block {tr : List PttEvent}
    (ih : ∀ p s, tr = p ++ .on :: s → PttEvent.off ∈ s) :
    ∀ p s, (PttEvent.on :: PttEvent.off :: tr) = p ++ .on :: s →
      PttEvent.off ∈ s := by
  intro p s h
  match p with
  | [] =>
    have hs : PttEvent.off :: tr = s := by simpa using h
    rw [← hs]
    exact List.mem_cons_self _ _
  | [_] => simp at h
  | a :: b :: p' =>
    simp only [List.cons_append, List.cons.injEq] at h
    exact ih p' s h.2.2

theorem transmitGo_ptt (files : List FileOutcome) :
    (∀ p s, transmitGo files = p ++ .on :: s → PttEvent.off ∈ s)
    ∧ finalPtt (transmitGo files) = false := by
  induction files with
  | nil => exact ⟨ptt_follows_nil, rfl⟩
  | cons f fs ih =>
    have hcont :
        (∀ p s, (if (fileTrace f).2 then transmitGo fs else [])
            = p ++ .on :: s → PttEvent.off ∈ s)
        ∧ finalPtt (if (fileTrace f).2 then transmitGo fs else [])
            = false := by
      split
      · exact ih
      · exact ⟨ptt_follows_nil, rfl⟩
    rcases fileTrace_shape f with hsh | hsh
    · simp only [transmitGo, hsh, List.nil_append]
      exact hcont
    · simp only [transmitGo, hsh, List.cons_append, List.nil_append]
      refine ⟨ptt_follows_block hcont.1, ?_⟩
      simpa [finalPtt, List.foldl_cons] using hcont.2

/-- C1: on every execution path of `transmit` — admission refused,
normal completion, forced transmission, decode failure, shutdown during
playback or pause, exception during playback — every PTT ON command in
its trace is followed by a PTT OFF command before the call returns, and
the PTT line is off at return. -/
theorem c1_ptt_released (admitted : Bool) (files : List FileOutcome) :
    (∀ p s, transmitTrace admitted files = p ++ .on :: s →
      PttEvent.off ∈ s)
    ∧ finalPtt (transmitTrace admitted files) = false := by
  rw [transmitTrace]
  split
  · exact transmitGo_ptt files
  · exact ⟨ptt_follows_nil, rfl⟩

theorem strictAlt_block {tr : List PttEvent}
    (h : strictAlt false tr = true) :
    strictAlt false (PttEvent.on :: PttEvent.off :: tr) = true := by
  simp [strictAlt, h]

theorem transmitGo_alt (files : List FileOutcome) :
    strictAlt false (transmitGo files) = true := by
  induction files with
  | nil => rfl
  | cons f fs ih =>
    have hcont :
        strictAlt false (if (fileTrace f).2 then transmitGo fs else [])
          = true := by
      split
      · exact ih
      · rfl
    rcases fileTrace_shape f with hsh | hsh
    · simp only [transmitGo, hsh, List.nil_append]
      exact hcont
    · simp only [transmitGo, hsh, List.cons_append, List.nil_append]
      exact strictAlt_block hcont

/-- C10: within one `transmit` call the PTT commands strictly alternate
ON, OFF, ON, OFF (an ON is never issued while already keyed), each file
iteration issues at most one ON, and a file that fails to decode causes
no PTT command at all. -/
theorem c10_alternation (admitted : Bool) (files : List FileOutcome)
    (f : FileOutcome) :
    strictAlt false (transmitTrace admitted files) = true
    ∧ countOn (fileTrace f).1 ≤ 1
    ∧ (f.decodeOk = false → (fileTrace f).1 = []) := by
  refine ⟨?_, ?_, ?_⟩
  · rw [transmitTrace]
    split
    · exact transmitGo_alt files
    · rfl
  · rcases fileTrace_shape f with h | h <;> simp [h, countOn]
  · intro hd
    rw [fileTrace]
    simp [hd]

/-! ## Admission behaviour -/

theorem csp_true {runningF : Nat → Bool} {signal : Nat → Int}
    {threshold : Int} {maxWait : Nat} (hrun : ∀ u, runningF u = true) :
    ∀ e, (check_signal_power runningF signal threshold maxWait e).2
      = true := by
  have H : ∀ k e, maxWait + 10 - e ≤ k →
      (check_signal_power runningF signal threshold maxWait e).2 = true := by
    intro k
    induction k with
    | zero =>
      intro e he
      rw [check_signal_power]
      rw [if_pos (hrun e)]
      split
      · rfl
      · rw [if_pos (by omega)]
    | succ k ihk =>
      intro e he
      rw [check_signal_power]
      rw [if_pos (hrun e)]
      split
      · rfl
      · split
        case isTrue => rfl
        case isFalse h2 => exact ihk (e + 10) (by omega)
  intro e
  exact H (maxWait + 10 - e) e le_rfl

theorem csp_bound {runningF : Nat → Bool} {signal : Nat → Int}
    {threshold : Int} {maxWait : Nat} (hrun : ∀ u, runningF u = true)
    (t : Nat) (hsig : ∀ u, t ≤ u → signal u < threshold) :
    ∀ e, (check_signal_power runningF signal threshold maxWait e).1
      ≤ max e (t + 10) := by
  have H : ∀ k e, maxWait + 10 - e ≤ k →
      (check_signal_power runningF signal threshold maxWait e).1
        ≤ max e (t + 10) := by
    intro k
    induction k with
    | zero =>
      intro e he
      rw [check_signal_power]
      rw [if_pos (hrun e)]
      split
      · exact le_max_left _ _
      · rw [if_pos (by omega)]
        exact le_max_left _ _
    | succ k ihk =>
      intro e he
      rw [check_signal_power]
      rw [if_pos (hrun e)]
      split
      case isTrue => exact le_max_left _ _
      case isFalse h1 =>
        split
        case isTrue => exact le_max_left _ _
        case isFalse h2 =>
          have het : e < t := by
            by_contra hge
            exact h1 (hsig e (by omega))
          have := ihk (e + 10) (by omega)
          omega
  intro e
  exact H (maxWait + 10 - e) e le_rfl

theorem csp_timeout {runningF : Nat → Bool} {signal : Nat → Int}
    {threshold : Int} {maxWait : Nat} (hrun : ∀ u, runningF u = true)
    (hsig : ∀ u, threshold ≤ signal u) :
    ∀ e, maxWait
      < (check_signal_power runningF signal threshold maxWait e).1 := by
  have H : ∀ k e, maxWait + 10 - e ≤ k →
      maxWait
        < (check_signal_power runningF signal threshold maxWait e).1 := by
    intro k
    induction k with
    | zero =>
      intro e he
      rw [check_signal_power]
      rw [if_pos (hrun e), if_neg (not_lt.mpr (hsig e)), if_pos (by omega)]
      omega
    | succ k ihk =>
      intro e he
      rw [check_signal_power]
      rw [if_pos (hrun e), if_neg (not_lt.mpr (hsig e))]
      split
      case isTrue h2 => exact h2
      case isFalse h2 => exact ihk (e + 10) (by omega)
  intro e
  exact H (maxWait + 10 - e) e le_rfl

/-- C9: while the running flag stays set, `check_signal_power` never
returns `False`; if the signal reads below the threshold from time `t`
on, it returns `True` within 10 seconds of `t` (it polls at 10-second
intervals); and if the signal never drops below the threshold it still
returns `True`, at an elapsed time strictly beyond `max_waiting_time`
(the logged-warning forced path). -/
theorem c9_admission (runningF : Nat → Bool) (signal : Nat → Int)
    (threshold : Int) (maxWait t : Nat)
    (hrun : ∀ u, runningF u = true) :
    (check_signal_power runningF signal threshold maxWait 0).2 = true
    ∧ ((∀ u, t ≤ u → signal u < threshold) →
        (check_signal_power runningF signal threshold maxWait 0).1 ≤ t + 10)
    ∧ ((∀ u, threshold ≤ signal u) →
        maxWait
          < (check_signal_power runningF signal threshold maxWait 0).1) := by
  refine ⟨csp_true hrun 0, fun hsig => ?_, fun hsig => csp_timeout hrun hsig 0⟩
  have h := @csp_bound runningF signal threshold maxWait hrun t hsig 0
  simpa using h

/-! ## Witnesses instantiating the hypotheses of the claim theorems -/

/-- C1 witness: the trace of a one-file normal transmission,
`[ON, OFF]`, has its OFF after its ON and ends unkeyed. -/
theorem c1_witness :
    PttEvent.off ∈ [PttEvent.off]
    ∧ finalPtt (transmitTrace true [⟨true, false, false, false⟩]) = false := by
  have h := c1_ptt_released true [⟨true, false, false, false⟩]
  exact ⟨h.1 [] [PttEvent.off] rfl, h.2⟩

/-- C2 witness: a blank-Start-Date row is skipped with the rest of the
file still parsed; an unparseable duration empties the whole file. -/
theorem c2_witness :
    parse_schedule 0 "setA" (rowBlank :: [rowGood])
      = parse_schedule 0 "setA" [rowGood]
    ∧ parse_schedule 0 "setA" ([rowGood] ++ rowBadDur :: [rowGood]) = []
    ∧ parseRow 0 "setA" { rowGood with startDate := none } = .ok [] :=
  c2_row_skip_file_abort 0 "setA" rowBlank rowBadDur
    { rowGood with startDate := none } [rowGood] [rowGood] [rowGood]
    rfl rfl rfl

/-- C3 witness: mode `"XYZ"` raises and the error ends the loop. -/
theorem c3_witness :
    parse_mode "XYZ" = .error ("Invalid mode: " ++ "XYZ")
    ∧ fireSchedules 5 (badModeSched :: []) = .error "Invalid mode: XYZ"
    ∧ supervisorLoop (badModeSched :: []) (5 :: [])
        = .error "Invalid mode: XYZ" :=
  c3_mode_error_exits "XYZ" badModeSched [] 5 [] "Invalid mode: XYZ"
    ⟨by decide, by decide, by decide, by decide, by decide⟩ rfl rfl

/-- C4 witness: a library with two identical rows fails to load with
the overlap error, and the previous index is kept. -/
theorem c4_witness :
    load_and_check_schedules 0 c4lib = .error overlapMsg
    ∧ mainReload [c6occB] 0 c4lib = [c6occB] :=
  ⟨rfl, c4_reload_atomic [c6occB] 0 c4lib overlapMsg rfl⟩

/-- C5 witness: the broadcast list of a two-file folder holds exactly
its `.wav` and `.mp3` files. -/
theorem c5_witness :
    (listAudioFiles ["a.mp3", "b.wav"]).Perm
      (["a.mp3", "b.wav"].filter
        (fun f => hasSuffixB ".wav" f || hasSuffixB ".mp3" f)) :=
  (c5_files_grouped ["a.mp3", "b.wav"]).1

/-- C6 witness: `c6lib` loads successfully and the returned list is the
concatenation of the per-set parses. -/
theorem c6_witness :
    load_and_check_schedules 0 c6lib = .ok [c6occA, c6occB]
    ∧ [c6occA, c6occB] = ((c6lib.filter (·.hasSchedule)).map
        (fun s => parse_schedule 0 s.name s.rows)).flatten :=
  ⟨rfl, (c6_load_concat 0 c6lib [c6occA, c6occB] rfl).1⟩

/-- C7 witness: two positive-length occurrences with equal start times,
on which the implemented check and the spec's sweep agree. -/
theorem c7_witness :
    (∀ o ∈ [c6occA, c7occ], o.start_datetime < o.end_datetime)
    ∧ (check_overlaps [c6occA, c7occ] = .error overlapMsg ↔
        specAdjacentSweep (sortBy schedLt [c6occA, c7occ]) = true) :=
  ⟨by decide, (c7_overlap_refinement [c6occA, c7occ] (by decide)).1⟩

/-- C8 witness: a singleton list passes the overlap check and has at
most one active occurrence at time 0. -/
theorem c8_witness :
    check_overlaps [c6occA] = .ok ()
    ∧ ([c6occA].filter (activeAt 0)).length ≤ 1 :=
  ⟨rfl, c8_single_active [c6occA] 0 rfl⟩

/-- C9 witness: with the flag always set and a quiet channel from time
0, admission returns `True` within 10 seconds. -/
theorem c9_witness :
    (check_signal_power (fun _ => true) (fun _ => 0) 1 30 0).2 = true
    ∧ (check_signal_power (fun _ => true) (fun _ => 0) 1 30 0).1
        ≤ 0 + 10 := by
  have h := c9_admission (fun _ => true) (fun _ => 0) 1 30 0 (fun _ => rfl)
  exact ⟨h.1, h.2.1 (fun _ _ => one_pos)⟩

/-- C10 witness: a normal one-file trace alternates from unkeyed, and a
decode-failure iteration issues no PTT command. -/
theorem c10_witness :
    strictAlt false (transmitTrace true [⟨true, false, false, false⟩]) = true
    ∧ countOn (fileTrace ⟨false, false, false, false⟩).1 ≤ 1
    ∧ (fileTrace ⟨false, false, false, false⟩).1 = [] := by
  have h := c10_alternation true [⟨true, false, false, false⟩]
    ⟨false, false, false, false⟩
  exact ⟨h.1, h.2.1, h.2.2 rfl⟩

end RigRemote
